import Mathlib

/-!
Verification of the resilient fetch-and-cache pipeline of the fpl_mcp
repository (src/fpl_mcp/fpl/api.py and src/fpl_mcp/config.py) against its
natural-language specification.

The Python code is shallowly embedded: JSON documents become the inductive
type `Json`, the retry / proxy-failover control flow of
`FPLAPI._make_request` becomes a pure function that threads the network
outcomes and random jitter draws as input streams and emits an explicit
event trace, and the pure helpers (`_get_next_proxy`,
`get_current_gameweek`, the bootstrap phase normalization,
`validate_data`) become total Lean functions.  Python exceptions that the
code does not catch are modelled with `Option` / `Except`.
-/

namespace FPL

/-- Model of a Python JSON value (the payloads handled by api.py).
Numbers are modelled as integers; the fields of an object keep their
insertion order, as Python dicts do. -/
inductive Json where
  | null
  | bool (b : Bool)
  | num (n : Int)
  | str (s : String)
  | arr (elems : List Json)
  | obj (fields : List (String × Json))

/-- Python truthiness (`if value:`) for a JSON value. -/
def truthy : Json → Bool
  | .null => false
  | .bool b => b
  | .num n => n != 0
  | .str s => s != ""
  | .arr xs => !xs.isEmpty
  | .obj fs => !fs.isEmpty

/-- Whether a JSON value is an object (a Python dict). -/
def isObj : Json → Bool
  | .obj _ => true
  | _ => false

/-- Python `d.get(key, default)` on a JSON value: `none` models the
AttributeError raised when the receiver is not a dict. -/
def pyGetD (j : Json) (key : String) (dflt : Json) : Option Json :=
  match j with
  | .obj fs => some ((fs.lookup key).getD dflt)
  | _ => none

/-- Field lookup on a JSON object (`none` when the key is absent or the
value is not an object). -/
def objLookup (j : Json) (key : String) : Option Json :=
  match j with
  | .obj fs => fs.lookup key
  | _ => none

/-- Python `d[key] = v` on an ordered field list: replaces the (unique)
existing binding in place, or appends a new binding at the end. -/
def setKey : List (String × Json) → String → Json → List (String × Json)
  | [], k, v => [(k, v)]
  | (k', v') :: rest, k, v =>
    if k' = k then (k, v) :: rest else (k', v') :: setKey rest k v

/-! ### FPLAPI.get_current_gameweek (api.py lines 269-288) -/

/-- One of the two `for gw in gameweeks` loops of `get_current_gameweek`:
scan for the first entry whose `key` field (defaulting to `False`) is
truthy.  The outer `none` models the AttributeError raised by
`gw.get(...)` when an entry is not a dict; `some none` means the loop
fell through without finding an entry. -/
def findFirstTruthy (key : String) : List Json → Option (Option Json)
  | [] => some none
  | gw :: rest =>
    match pyGetD gw key (.bool false) with
    | none => none
    | some v => if truthy v then some (some gw) else findFirstTruthy key rest

/-- Embedding of `FPLAPI.get_current_gameweek` applied to the gameweek
list obtained from `get_gameweeks`: first entry with truthy
`is_current`, else first with truthy `is_next`, else
`gameweeks[0] if gameweeks else` the empty dict.  `none` models an
uncaught exception. -/
def get_current_gameweek (gws : List Json) : Option Json :=
  match findFirstTruthy "is_current" gws with
  | none => none
  | some (some gw) => some gw
  | some none =>
    match findFirstTruthy "is_next" gws with
    | none => none
    | some (some gw) => some gw
    | some none => some (match gws with | [] => .obj [] | gw :: _ => gw)

/-- The guard tested by each loop of `get_current_gameweek`: the `key`
field of the entry, defaulting to `False`, is truthy. -/
def flagTruthy (key : String) (gw : Json) : Bool :=
  match gw with
  | .obj fs => truthy ((fs.lookup key).getD (.bool false))
  | _ => false

/-! ### Bootstrap phase normalization (api.py lines 236-246) -/

/-- Whether `phase.get('highest_score') is None` holds: the field is
absent or bound to JSON null. -/
def hsNullOrAbsent (phase : Json) : Bool :=
  match phase with
  | .obj fs =>
    match fs.lookup "highest_score" with
    | none => true
    | some .null => true
    | some _ => false
  | _ => false

/-- The body of the per-phase fixup loop of `get_bootstrap_static`:
when `highest_score` is absent or null it is set to `0`, otherwise the
phase is left unchanged.  `none` models the AttributeError raised when
a phase is not a dict. -/
def fixPhase : Json → Option Json
  | .obj fs =>
    match fs.lookup "highest_score" with
    | none => some (.obj (setKey fs "highest_score" (.num 0)))
    | some .null => some (.obj (setKey fs "highest_score" (.num 0)))
    | some _ => some (.obj fs)
  | _ => none

/-- Sequence a fallible function over a list, mirroring the Python
`for phase in data['phases']` loop (the first raised exception aborts). -/
def mapOpt (f : Json → Option Json) : List Json → Option (List Json)
  | [] => some []
  | x :: xs =>
    match f x with
    | none => none
    | some y =>
      match mapOpt f xs with
      | none => none
      | some ys => some (y :: ys)

/-- Embedding of the post-fetch body of `FPLAPI.get_bootstrap_static`:
the null-coercion normalization of `phases` applied to the fetched
document.  Schema validation (advisory) does not alter the document and
the transport and cache layers are outside this function.  `none`
models an uncaught exception; a `phases` value that is not a JSON array
is not modelled (the claims only concern documents containing a phases
list). -/
def get_bootstrap_static_fix (data : Json) : Option Json :=
  match data with
  | .obj fs =>
    match fs.lookup "phases" with
    | some (.arr ps) =>
      match mapOpt fixPhase ps with
      | some ps' => some (.obj (setKey fs "phases" (.arr ps')))
      | none => none
    | some _ => none
    | none => some (.obj fs)
  | j => some j

/-! ### FPLAPI._get_next_proxy (api.py lines 77-87) -/

/-- Embedding of `FPLAPI._get_next_proxy`.  The state is the
`current_proxy_index` cursor; the result pairs the returned value with
the updated cursor.  The outer `none` models the IndexError raised when
rotation is enabled and the pool is empty (`self.proxy_list[0]` on an
empty list). -/
def getNextProxy (rotationEnabled : Bool) (proxies : List String) (idx : Nat) :
    Option (Option String × Nat) :=
  if rotationEnabled = false then some (none, idx)
  else
    let i := if proxies.length ≤ idx then 0 else idx
    match proxies[i]? with
    | some p => some (some p, i + 1)
    | none => none

/-- Run `n` successive calls to `_get_next_proxy` with rotation enabled,
threading the cursor; collects the returned values.  `none` models an
IndexError in some call. -/
def rotCalls (proxies : List String) : Nat → Nat → Option (List (Option String) × Nat)
  | idx, 0 => some ([], idx)
  | idx, n + 1 =>
    match getNextProxy true proxies idx with
    | none => none
    | some (r, idx') =>
      match rotCalls proxies idx' n with
      | none => none
      | some (rs, idxF) => some (r :: rs, idxF)

/-! ### FPLAPI._make_request (api.py lines 105-201)

The network is modelled as a stream `net : Nat → Outcome`: the k-th HTTP
request issued within the call (direct or proxied, in program order)
receives outcome `net k`.  The `random.uniform` draws are modelled by a
stream `jit : Nat → ℚ` of unit-interval samples: the backoff following
the request with counter value `k` reads the fresh sample `jit k`
(request counters are strictly increasing, so every backoff reads its
own sample); `random.uniform(0, 0.5)` is modelled as half of a unit
draw.
Each run returns its result together with an explicit trace of events:
rate-limiter acquisitions, direct and proxied HTTP attempts, backoff
sleeps, and the diagnostic log block emitted on a final 403. -/

/-- Outcome of one HTTP request: a JSON body (2xx), an
`httpx.HTTPStatusError` with the given status from
`raise_for_status`, or an `httpx.RequestError` (connection failure,
timeout, ...). -/
inductive Outcome where
  | ok (body : Json)
  | httpErr (status : Nat)
  | reqErr

/-- Model of the exceptions `_make_request` stores in `last_error` and
re-raises: the two httpx exception classes it catches. -/
inductive Error where
  | httpStatus (status : Nat)
  | requestError
deriving DecidableEq, Repr

/-- Observable events of one `_make_request` call, in program order. -/
inductive Event where
  | acquire
  | direct (attempt : Nat)
  | sleepDirect (attempt : Nat) (delay : ℚ)
  | proxyReq (proxy : String) (retry : Nat)
  | sleepProxy (delay : ℚ)
  | log403Diag (proxiesTried : Option Nat)
deriving DecidableEq, Repr

/-- Result of a `_make_request` call: a parsed JSON body, a raised
stored error, or an unmodelled crash (an exception path the code never
reaches on the modelled inputs). -/
inductive FetchResult where
  | success (body : Json)
  | failure (e : Error)
  | crash

/-- The proxy-related configuration read by `_make_request`
(config.py: `PROXY_ROTATION_ENABLED`, `PROXY_LIST`).  In config.py,
`PROXY_ROTATION_ENABLED = len(PROXY_LIST) > 0 and PROXY_ENABLED`, so an
enabled rotation implies a nonempty pool of nonempty proxy URIs. -/
structure Ctx where
  proxyRotationEnabled : Bool
  proxyList : List String

/-- config.py line 79: max retries per proxy. -/
def PROXY_MAX_RETRIES : Nat := 2

/-- State returned by the direct-connection loop. -/
structure DirectOut where
  body : Option Json
  lastErr : Option Error
  trace : List Event
  nextNet : Nat

/-- The direct-connection retry loop of `_make_request` (lines 123-151):
`for attempt in range(max_retries + 1)`.  `attempt` doubles as the
index into `net` (the direct phase issues the first requests of the
call); `rem` is the number of loop iterations left, so the loop is
entered with `rem = maxRetries + 1 - attempt`. -/
def directLoop (net : Nat → Outcome) (jit : Nat → ℚ) (maxRetries : Nat) :
    Nat → Option Error → Nat → DirectOut
  | attempt, le, 0 => ⟨none, le, [], attempt⟩
  | attempt, _le, rem + 1 =>
    match net attempt with
    | .ok body => ⟨some body, _le, [.acquire, .direct attempt], attempt + 1⟩
    | .httpErr s =>
      if s = 403 then
        -- break: do not retry the direct connection on 403
        ⟨none, some (.httpStatus s), [.acquire, .direct attempt], attempt + 1⟩
      else if attempt < maxRetries then
        let d : ℚ := (2 ^ attempt : ℚ) + jit attempt
        let r := directLoop net jit maxRetries (attempt + 1) (some (.httpStatus s)) rem
        { r with trace := .acquire :: .direct attempt :: .sleepDirect attempt d :: r.trace }
      else
        let r := directLoop net jit maxRetries (attempt + 1) (some (.httpStatus s)) rem
        { r with trace := .acquire :: .direct attempt :: r.trace }
    | .reqErr =>
      if attempt < maxRetries then
        let d : ℚ := (2 ^ attempt : ℚ) + jit attempt
        let r := directLoop net jit maxRetries (attempt + 1) (some .requestError) rem
        { r with trace := .acquire :: .direct attempt :: .sleepDirect attempt d :: r.trace }
      else
        let r := directLoop net jit maxRetries (attempt + 1) (some .requestError) rem
        { r with trace := .acquire :: .direct attempt :: r.trace }

/-- State returned by the per-proxy retry loop. -/
structure ProxyOut where
  body : Option Json
  trace : List Event
  nextNet : Nat

/-- The per-proxy retry loop of `_make_request` (lines 162-186):
`for retry in range(PROXY_MAX_RETRIES)`, entered with
`rem = PROXY_MAX_RETRIES - retry`.  A 403 through this proxy, or a
request error on the last retry, breaks to the next proxy; no branch of
this loop writes `last_error`. -/
def proxyRetryLoop (net : Nat → Outcome) (jit : Nat → ℚ) (proxy : String) :
    Nat → Nat → Nat → ProxyOut
  | _retry, 0, nidx => ⟨none, [], nidx⟩
  | retry, rem + 1, nidx =>
    match net nidx with
    | .ok body => ⟨some body, [.acquire, .proxyReq proxy retry], nidx + 1⟩
    | .httpErr s =>
      if s = 403 then
        ⟨none, [.acquire, .proxyReq proxy retry], nidx + 1⟩
      else if retry < PROXY_MAX_RETRIES - 1 then
        let d : ℚ := 1 + jit nidx / 2
        let r := proxyRetryLoop net jit proxy (retry + 1) rem (nidx + 1)
        { r with trace := .acquire :: .proxyReq proxy retry :: .sleepProxy d :: r.trace }
      else
        let r := proxyRetryLoop net jit proxy (retry + 1) rem (nidx + 1)
        { r with trace := .acquire :: .proxyReq proxy retry :: r.trace }
    | .reqErr =>
      if retry < PROXY_MAX_RETRIES - 1 then
        let d : ℚ := 1 + jit nidx / 2
        let r := proxyRetryLoop net jit proxy (retry + 1) rem (nidx + 1)
        { r with trace := .acquire :: .proxyReq proxy retry :: .sleepProxy d :: r.trace }
      else
        ⟨none, [.acquire, .proxyReq proxy retry], nidx + 1⟩

/-- State returned by the proxy-rotation loop. -/
structure ProxyPhaseOut where
  body : Option Json
  trace : List Event
  proxyIdx : Nat
  nextNet : Nat
  crashed : Bool

/-- The proxy-rotation loop of `_make_request` (lines 157-186):
`for proxy_attempt in range(len(self.proxy_list))`, entered with
`rem = proxies.length`.  Each iteration draws the next proxy from the
rotating cursor (`pidx`) and runs the per-proxy retry loop; a falsy
draw (`if not proxy: break`) ends the phase. -/
def proxyLoop (net : Nat → Outcome) (jit : Nat → ℚ) (proxies : List String) :
    Nat → Nat → Nat → ProxyPhaseOut
  | 0, pidx, nidx => ⟨none, [], pidx, nidx, false⟩
  | rem + 1, pidx, nidx =>
    match getNextProxy true proxies pidx with
    | none => ⟨none, [], pidx, nidx, true⟩
    | some (none, pidx') => ⟨none, [], pidx', nidx, false⟩
    | some (some proxy, pidx') =>
      if proxy = "" then ⟨none, [], pidx', nidx, false⟩
      else
        let r := proxyRetryLoop net jit proxy 0 PROXY_MAX_RETRIES nidx
        match r.body with
        | some body => ⟨some body, r.trace, pidx', r.nextNet, false⟩
        | none =>
          let rest := proxyLoop net jit proxies rem pidx' r.nextNet
          { rest with trace := r.trace ++ rest.trace }

/-- Whether `last_error` is an `httpx.HTTPStatusError` with status 403
(the guard of lines 154 and 189). -/
def is403Err : Option Error → Bool
  | some (.httpStatus s) => s == 403
  | _ => false

/-- The epilogue of `_make_request` (lines 188-201): when `last_error`
is a 403, log the diagnostic block naming which strategies were tried;
then re-raise `last_error` (crash models `raise None`, unreachable). -/
def raisePhase (ctx : Ctx) (le : Option Error) : FetchResult × List Event :=
  let diag : List Event :=
    if is403Err le then
      [.log403Diag (if ctx.proxyRotationEnabled then some ctx.proxyList.length else none)]
    else []
  match le with
  | some e => (.failure e, diag)
  | none => (.crash, diag)

/-- Result of one `_make_request` call: the value returned or exception
raised, the full event trace, and the final proxy-rotation cursor. -/
structure RunOut where
  result : FetchResult
  trace : List Event
  proxyIdx : Nat

/-- Embedding of `FPLAPI._make_request`: the direct phase, the
403-guarded proxy-rotation phase, and the raise epilogue, threading the
network and jitter streams and the rotation cursor `pidx`. -/
def make_request (ctx : Ctx) (maxRetries : Nat) (net : Nat → Outcome)
    (jit : Nat → ℚ) (pidx : Nat) : RunOut :=
  let d := directLoop net jit maxRetries 0 none (maxRetries + 1)
  match d.body with
  | some body => ⟨.success body, d.trace, pidx⟩
  | none =>
    if ctx.proxyRotationEnabled && is403Err d.lastErr then
      let p := proxyLoop net jit ctx.proxyList ctx.proxyList.length pidx d.nextNet
      match p.body with
      | some body => ⟨.success body, d.trace ++ p.trace, p.proxyIdx⟩
      | none =>
        if p.crashed then ⟨.crash, d.trace ++ p.trace, p.proxyIdx⟩
        else
          let r := raisePhase ctx d.lastErr
          ⟨r.1, d.trace ++ p.trace ++ r.2, p.proxyIdx⟩
    else
      let r := raisePhase ctx d.lastErr
      ⟨r.1, d.trace ++ r.2, pidx⟩

/-- The direct phase of a `_make_request` call: the direct loop run
from attempt 0 with no stored error and the full iteration budget. -/
def dOut (net : Nat → Outcome) (jit : Nat → ℚ) (maxRetries : Nat) : DirectOut :=
  directLoop net jit maxRetries 0 none (maxRetries + 1)

/-- The proxy phase of a `_make_request` call, as run after its direct
phase. -/
def pOut (ctx : Ctx) (net : Nat → Outcome) (jit : Nat → ℚ) (maxRetries pidx : Nat) :
    ProxyPhaseOut :=
  proxyLoop net jit ctx.proxyList ctx.proxyList.length pidx
    (dOut net jit maxRetries).nextNet

/-- Direct HTTP attempts in a trace. -/
def isDirectEvt : Event → Bool
  | .direct _ => true
  | _ => false

/-- Proxied HTTP attempts in a trace. -/
def isProxyEvt : Event → Bool
  | .proxyReq _ _ => true
  | _ => false

/-- HTTP attempts of either kind. -/
def isAttemptEvt (e : Event) : Bool := isDirectEvt e || isProxyEvt e

/-- A network outcome the direct loop treats as transient: a request
error, or an HTTP status error other than 403. -/
def transientO (o : Outcome) : Prop :=
  o = .reqErr ∨ ∃ s, o = .httpErr s ∧ s ≠ 403

/-- The events of one non-final direct-loop iteration at attempt `n`:
acquire the limiter, issue the request, sleep with exponential backoff
plus jitter. -/
def dblock (jit : Nat → ℚ) (n : Nat) : List Event :=
  [.acquire, .direct n, .sleepDirect n ((2 ^ n : ℚ) + jit n)]

/-- Scans a trace, checking that every HTTP attempt is immediately
preceded by the given previous event or by a limiter acquisition. -/
def guardedAfter : Event → List Event → Bool
  | _, [] => true
  | prev, e :: rest =>
    (!isAttemptEvt e || (prev == Event.acquire)) && guardedAfter e rest

/-- Every HTTP attempt in the trace is immediately preceded by a
limiter acquisition (and the trace does not open with an attempt). -/
def wellGuarded : List Event → Bool
  | [] => true
  | e :: rest => !isAttemptEvt e && guardedAfter e rest

/-- Events that the direct-connection loop can emit. -/
def dOnly : Event → Bool
  | .acquire => true
  | .direct _ => true
  | .sleepDirect _ _ => true
  | _ => false

/-- Events that the proxy phase can emit. -/
def pOnly : Event → Bool
  | .acquire => true
  | .proxyReq _ _ => true
  | .sleepProxy _ => true
  | _ => false

/-- The diagnostic log event of the raise epilogue. -/
def isLogEvt : Event → Bool
  | .log403Diag _ => true
  | _ => false

/-! ### FPLAPI.validate_data (api.py lines 203-223) and claim C8 -/

/-- Classification of one `jsonschema.validate(instance, schema)` call:
it returns normally, raises `ValidationError` (invalid instance), or
raises `SchemaError` (invalid schema — jsonschema's documented behavior
when the schema itself does not conform to the metaschema). -/
inductive JResult where
  | ok
  | invalidInstance
  | invalidSchema
deriving DecidableEq

/-- Python truthiness of an optional JSON value (`None` is falsy). -/
def truthyOpt : Option Json → Bool
  | none => false
  | some j => truthy j

/-- Python `a or b` on optional JSON values. -/
def pyOr (a b : Option Json) : Option Json := if truthyOpt a then a else b

/-- Embedding of `FPLAPI.validate_data`, parametrized by the behavior
`lib` of the jsonschema library.  The code returns `True` when neither
the argument schema nor `self.schema` is truthy; otherwise it validates
against `schema or self.schema`, catching only `ValidationError`
(returning `False`).  The `Except` error value models an exception
escaping to the caller: a `SchemaError` is not caught. -/
def validate_data (lib : Json → Json → JResult) (selfSchema : Option Json)
    (data : Json) (schemaArg : Option Json) : Except Unit Bool :=
  if !truthyOpt schemaArg && !truthyOpt selfSchema then .ok true
  else
    match pyOr schemaArg selfSchema with
    | some sch =>
      match lib data sch with
      | .ok => .ok true
      | .invalidInstance => .ok false
      | .invalidSchema => .error ()
    | none => .error ()

/-- Modelled from jsonschema's documented contract: on an invalid
schema such as `obj [("type", num 12)]` (the `type` keyword must be a
string or list), `jsonschema.validate` raises `SchemaError` regardless
of the instance.  This is that behavior restricted to such a schema. -/
def libInvalidSchema : Json → Json → JResult := fun _ _ => .invalidSchema

/-! ### TTLCache singleflight (claim C9)

The cache component (`fpl_mcp/fpl/cache.py`, imported by api.py as
`from .cache import cache, cached`) is not included under src/, so the
singleflight behavior is modelled from the spec (sections 3 and 4.2). -/

/-- Modelled from the spec: the per-key state of the TTLCache
singleflight protocol — the live entry, the InFlightMarker (an
in-flight flag plus the pending waiters), and a counter of producer
invocations.  cache.py is absent from src/. -/
structure SFState where
  entry : Option Json
  inflight : Bool
  waiters : Nat
  calls : Nat

/-- Modelled from the spec: one caller reaching `getOrCompute` for the
key.  A live entry is served immediately; otherwise the caller joins
the in-flight recompute as a waiter, invoking the producer (exactly
once) only when no recompute is in flight. -/
def sfArrive (s : SFState) : SFState × Option Json :=
  match s.entry with
  | some v => (s, some v)
  | none =>
    if s.inflight then ({ s with waiters := s.waiters + 1 }, none)
    else ({ s with inflight := true, waiters := s.waiters + 1, calls := s.calls + 1 }, none)

/-- Modelled from the spec: `n` concurrent callers arriving in
sequence before the producer completes. -/
def sfArriveN : Nat → SFState → SFState
  | 0, s => s
  | n + 1, s => sfArriveN n (sfArrive s).1

/-- Modelled from the spec: the producer invocation completes with
result `r`.  All waiters receive that same outcome, the InFlightMarker
is destroyed, and the value is stored only on success — failures are
never cached. -/
def sfComplete (s : SFState) (r : Except String Json) :
    SFState × List (Except String Json) :=
  (⟨match r with | .ok v => some v | .error _ => none, false, 0, s.calls⟩,
   List.replicate s.waiters r)

/-- A cold key: no entry, no in-flight recompute. -/
def sfCold : SFState := ⟨none, false, 0, 0⟩

/-! ### Claims C2, C3, C4 -/

/-- A JSON value passes `isObj` exactly when it is an object. -/
theorem isObj_iff (j : Json) : isObj j = true ↔ ∃ fs, j = .obj fs := by
  cases j <;> simp [isObj]

/-- On a list of objects, each scanning loop of `get_current_gameweek`
finds exactly the first entry satisfying `flagTruthy key`. -/
theorem findFirstTruthy_eq_find (key : String) (gws : List Json)
    (h : ∀ gw ∈ gws, isObj gw = true) :
    findFirstTruthy key gws = some (gws.find? (flagTruthy key)) := by
  induction gws with
  | nil => rfl
  | cons gw rest ih =>
    obtain ⟨fs, rfl⟩ := (isObj_iff gw).1 (h gw (List.mem_cons_self _ _))
    have ihr := ih (fun x hx => h x (List.mem_cons_of_mem _ hx))
    by_cases ht : truthy ((fs.lookup key).getD (.bool false))
    · simp [findFirstTruthy, pyGetD, ht, List.find?, flagTruthy]
    · simp [findFirstTruthy, pyGetD, ht, List.find?, flagTruthy, ihr]

/-- Claim C2: over any gameweek list of objects, `get_current_gameweek`
returns the first entry whose `is_current` flag is truthy; failing
that, the first entry whose `is_next` flag is truthy; failing that, the
first entry; and on the empty list it returns the empty object without
raising. -/
theorem getCurrentGameweek_spec (gws : List Json)
    (hObj : ∀ gw ∈ gws, isObj gw = true) :
    (∀ gw, gws.find? (flagTruthy "is_current") = some gw →
      get_current_gameweek gws = some gw) ∧
    (gws.find? (flagTruthy "is_current") = none →
      ∀ gw, gws.find? (flagTruthy "is_next") = some gw →
        get_current_gameweek gws = some gw) ∧
    (gws.find? (flagTruthy "is_current") = none →
      gws.find? (flagTruthy "is_next") = none →
      ∀ gw rest, gws = gw :: rest → get_current_gameweek gws = some gw) ∧
    (gws = [] → get_current_gameweek gws = some (Json.obj [])) := by
  have hc := findFirstTruthy_eq_find "is_current" gws hObj
  have hn := findFirstTruthy_eq_find "is_next" gws hObj
  refine ⟨?_, ?_, ?_, ?_⟩
  · intro gw hgw
    simp [get_current_gameweek, hc, hgw]
  · intro hnone gw hgw
    simp [get_current_gameweek, hc, hn, hnone, hgw]
  · intro hnone hnone2 gw rest hcons
    subst hcons
    simp [get_current_gameweek, hc, hn, hnone, hnone2]
  · intro h
    subst h
    rfl

/-- Witness for C2: a list with no truthy `is_current` entry but a
truthy `is_next` entry yields that entry. -/
theorem getCurrentGameweek_spec_w :
    get_current_gameweek [Json.obj [("id", Json.num 7), ("is_next", Json.bool true)]] =
      some (Json.obj [("id", Json.num 7), ("is_next", Json.bool true)]) :=
  (getCurrentGameweek_spec
    [Json.obj [("id", Json.num 7), ("is_next", Json.bool true)]]
    (by intro gw hgw; simp at hgw; subst hgw; rfl)).2.1 rfl _ rfl

/-- After `setKey`, looking up the written key yields the new value. -/
theorem lookup_setKey (fs : List (String × Json)) (k : String) (v : Json) :
    (setKey fs k v).lookup k = some v := by
  induction fs with
  | nil => simp [setKey, List.lookup]
  | cons p rest ih =>
    obtain ⟨k', v'⟩ := p
    by_cases h : k' = k
    · subst h
      simp [setKey, List.lookup]
    · have h' : (k == k') = false := by
        simpa [beq_iff_eq] using fun hk => h hk.symm
      simp [setKey, h, List.lookup, h', ih]

/-- Applying the per-phase fixup loop to a list of phase objects
succeeds, producing a pointwise-related list: null-or-absent
`highest_score` becomes `0`, other phases are unchanged. -/
theorem mapOpt_fixPhase (ps : List Json) (h : ∀ p ∈ ps, isObj p = true) :
    ∃ ps', mapOpt fixPhase ps = some ps' ∧
      List.Forall₂ (fun p p' =>
        (hsNullOrAbsent p = true → objLookup p' "highest_score" = some (.num 0)) ∧
        (hsNullOrAbsent p = false → p' = p)) ps ps' := by
  induction ps with
  | nil => exact ⟨[], rfl, List.Forall₂.nil⟩
  | cons p rest ih =>
    obtain ⟨fs, rfl⟩ := (isObj_iff p).1 (h p (List.mem_cons_self _ _))
    obtain ⟨ps', hmap, hrel⟩ := ih (fun x hx => h x (List.mem_cons_of_mem _ hx))
    cases hl : fs.lookup "highest_score" with
    | none =>
      refine ⟨.obj (setKey fs "highest_score" (.num 0)) :: ps', ?_, ?_⟩
      · simp [mapOpt, fixPhase, hl, hmap]
      · exact List.Forall₂.cons
          ⟨fun _ => by simp [objLookup, lookup_setKey],
           fun hc => by simp [hsNullOrAbsent, hl] at hc⟩ hrel
    | some v =>
      cases v with
      | null =>
        refine ⟨.obj (setKey fs "highest_score" (.num 0)) :: ps', ?_, ?_⟩
        · simp [mapOpt, fixPhase, hl, hmap]
        · exact List.Forall₂.cons
            ⟨fun _ => by simp [objLookup, lookup_setKey],
             fun hc => by simp [hsNullOrAbsent, hl] at hc⟩ hrel
      | bool b =>
        exact ⟨.obj fs :: ps', by simp [mapOpt, fixPhase, hl, hmap],
          List.Forall₂.cons ⟨fun hT => by simp [hsNullOrAbsent, hl] at hT, fun _ => rfl⟩ hrel⟩
      | num n =>
        exact ⟨.obj fs :: ps', by simp [mapOpt, fixPhase, hl, hmap],
          List.Forall₂.cons ⟨fun hT => by simp [hsNullOrAbsent, hl] at hT, fun _ => rfl⟩ hrel⟩
      | str s =>
        exact ⟨.obj fs :: ps', by simp [mapOpt, fixPhase, hl, hmap],
          List.Forall₂.cons ⟨fun hT => by simp [hsNullOrAbsent, hl] at hT, fun _ => rfl⟩ hrel⟩
      | arr xs =>
        exact ⟨.obj fs :: ps', by simp [mapOpt, fixPhase, hl, hmap],
          List.Forall₂.cons ⟨fun hT => by simp [hsNullOrAbsent, hl] at hT, fun _ => rfl⟩ hrel⟩
      | obj gs =>
        exact ⟨.obj fs :: ps', by simp [mapOpt, fixPhase, hl, hmap],
          List.Forall₂.cons ⟨fun hT => by simp [hsNullOrAbsent, hl] at hT, fun _ => rfl⟩ hrel⟩

/-- Claim C3: for a bootstrap document with a `phases` list of objects,
the document returned by `get_bootstrap_static` has every phase whose
`highest_score` was null or absent coerced to `0`, and every other
phase unchanged. -/
theorem bootstrapNormalization_spec (fs : List (String × Json)) (ps : List Json)
    (hps : fs.lookup "phases" = some (.arr ps))
    (hobj : ∀ p ∈ ps, isObj p = true) :
    ∃ ps', get_bootstrap_static_fix (.obj fs) =
        some (.obj (setKey fs "phases" (.arr ps'))) ∧
      List.Forall₂ (fun p p' =>
        (hsNullOrAbsent p = true → objLookup p' "highest_score" = some (.num 0)) ∧
        (hsNullOrAbsent p = false → p' = p)) ps ps' := by
  obtain ⟨ps', hmap, hrel⟩ := mapOpt_fixPhase ps hobj
  exact ⟨ps', by simp [get_bootstrap_static_fix, hps, hmap], hrel⟩

/-- Witness for C3: the spec scenario — a payload with
`phases: [(id 1, highest_score null)]` is normalized to
`highest_score = 0`. -/
theorem bootstrapNormalization_spec_w :
    ∃ ps', get_bootstrap_static_fix
        (.obj [("phases", .arr [.obj [("id", Json.num 1), ("highest_score", Json.null)]])]) =
        some (.obj (setKey [("phases", .arr [.obj [("id", Json.num 1), ("highest_score", Json.null)]])]
          "phases" (.arr ps'))) ∧
      List.Forall₂ (fun p p' =>
        (hsNullOrAbsent p = true → objLookup p' "highest_score" = some (.num 0)) ∧
        (hsNullOrAbsent p = false → p' = p))
        [Json.obj [("id", Json.num 1), ("highest_score", Json.null)]] ps' :=
  bootstrapNormalization_spec _ _ rfl
    (by intro p hp; simp at hp; subst hp; rfl)

/-- Running `_get_next_proxy` from a cursor at the end of a pool
segment: the remaining segment is returned in order, then the cursor
wraps and the head of the pool is returned. -/
theorem rotCalls_append (proxies : List String) (hne : proxies ≠ []) :
    ∀ (post pre : List String), proxies = pre ++ post →
      rotCalls proxies pre.length (post.length + 1) =
        some (post.map some ++ [some (proxies.headD "")], 1) := by
  intro post
  induction post with
  | nil =>
    intro pre hpre
    have hlen : pre.length = proxies.length := by simp [hpre]
    cases proxies with
    | nil => exact absurd rfl hne
    | cons a as =>
      simp [rotCalls, getNextProxy, hlen]
  | cons p rest ih =>
    intro pre hpre
    have hlt : pre.length < proxies.length := by
      subst hpre; simp
    have hget : proxies[pre.length]? = some p := by
      subst hpre
      rw [List.getElem?_append_right (Nat.le_refl _)]
      simp
    have ihr := ih (pre ++ [p]) (by simp [hpre])
    have hlen1 : (pre ++ [p]).length = pre.length + 1 := by simp
    rw [hlen1] at ihr
    have hnp : getNextProxy true proxies pre.length = some (some p, pre.length + 1) := by
      simp [getNextProxy, Nat.not_le.2 hlt, hget]
    simp only [List.length_cons]
    rw [show rotCalls proxies pre.length (rest.length + 1 + 1) =
        (match getNextProxy true proxies pre.length with
         | none => none
         | some (r, idx') =>
           match rotCalls proxies idx' (rest.length + 1) with
           | none => none
           | some (rs, idxF) => some (r :: rs, idxF)) from rfl]
    rw [hnp]
    simp [ihr]

/-- Claim C4: with rotation enabled, a pool of size K (K at least 1)
and cursor starting at 0, K+1 successive `_get_next_proxy` calls
return each configured proxy exactly once in pool order and then wrap
to the first proxy again. -/
theorem proxyRotation_roundRobin (proxies : List String) (h : proxies ≠ []) :
    rotCalls proxies 0 (proxies.length + 1) =
      some (proxies.map some ++ [some (proxies.head h)], 1) := by
  have hrun := rotCalls_append proxies h proxies [] (by simp)
  simpa [List.headD_eq_head?, List.head?_eq_head h] using hrun

/-- Witness for C4: a two-proxy pool called three times yields
a, b, then a again. -/
theorem proxyRotation_roundRobin_w :
    rotCalls ["a", "b"] 0 3 = some ([some "a", some "b", some "a"], 1) :=
  proxyRotation_roundRobin ["a", "b"] (by simp)

/-- Counterexample to C8 as stated: called with a schema argument the
jsonschema library rejects as invalid, `validate_data` does not return
a boolean — the uncaught `SchemaError` propagates to the caller. -/
theorem validateData_raises_cex :
    validate_data libInvalidSchema none (Json.obj [])
      (some (Json.obj [("type", Json.num 12)])) = .error () := rfl

/-- Claim C8 (amended): for every document and schema argument on which
the jsonschema library raises at most `ValidationError` — in
particular, whenever the effective schema is valid — `validate_data`
returns a boolean and never raises; only a `SchemaError` from an
invalid schema escapes. -/
theorem validateData_total_amended (lib : Json → Json → JResult)
    (selfSchema : Option Json) (data : Json) (schemaArg : Option Json)
    (hlib : ∀ d s, lib d s ≠ .invalidSchema) :
    ∃ b : Bool, validate_data lib selfSchema data schemaArg = .ok b := by
  unfold validate_data
  by_cases hsa : truthyOpt schemaArg
  · cases schemaArg with
    | none => simp [truthyOpt] at hsa
    | some sch =>
      cases hl : lib data sch with
      | ok => exact ⟨true, by simp [hsa, pyOr, hl]⟩
      | invalidInstance => exact ⟨false, by simp [hsa, pyOr, hl]⟩
      | invalidSchema => exact absurd hl (hlib data sch)
  · by_cases hss : truthyOpt selfSchema
    · cases selfSchema with
      | none => simp [truthyOpt] at hss
      | some sch =>
        cases hl : lib data sch with
        | ok => exact ⟨true, by simp [hsa, hss, pyOr, hl]⟩
        | invalidInstance => exact ⟨false, by simp [hsa, hss, pyOr, hl]⟩
        | invalidSchema => exact absurd hl (hlib data sch)
    · exact ⟨true, by simp [hsa, hss]⟩

/-- Witness for the amended C8: a library behavior that accepts the
schema yields a boolean. -/
theorem validateData_total_amended_w :
    ∃ b : Bool, validate_data (fun _ _ => .ok) none (Json.obj []) none = .ok b :=
  validateData_total_amended _ _ _ _ (fun _ _ h => JResult.noConfusion h)

/-- Arrivals during an in-flight recompute only add waiters. -/
theorem sfArriveN_inflight (n : Nat) (s : SFState) (he : s.entry = none)
    (hi : s.inflight = true) :
    sfArriveN n s = { s with waiters := s.waiters + n } := by
  induction n generalizing s with
  | zero => simp [sfArriveN]
  | succ n ih =>
    have step : (sfArrive s).1 = { s with waiters := s.waiters + 1 } := by
      simp [sfArrive, he, hi]
    rw [sfArriveN, step, ih { s with waiters := s.waiters + 1 } he hi]
    have harith : s.waiters + 1 + n = s.waiters + (n + 1) := by omega
    rw [harith]

/-- Claim C9: N concurrent `getOrCompute` calls on a cold key invoke
the producer exactly once; all N callers receive the identical result
or error; a failed producer stores no entry, so a later call invokes
the producer again. -/
theorem cacheSingleflight_spec (n : Nat) (hn : 1 ≤ n) (r : Except String Json) :
    (sfArriveN n sfCold).calls = 1 ∧
    (sfArriveN n sfCold).waiters = n ∧
    (sfComplete (sfArriveN n sfCold) r).2 = List.replicate n r ∧
    ((sfComplete (sfArriveN n sfCold) r).1.entry =
      match r with | .ok v => some v | .error _ => none) ∧
    (∀ e, r = .error e →
      (sfArrive (sfComplete (sfArriveN n sfCold) r).1).1.calls = 2) := by
  obtain ⟨m, rfl⟩ : ∃ m, n = m + 1 := ⟨n - 1, by omega⟩
  have h1 : (sfArrive sfCold).1 = ⟨none, true, 1, 1⟩ := rfl
  have h2 : sfArriveN (m + 1) sfCold = ⟨none, true, m + 1, 1⟩ := by
    rw [sfArriveN, h1, sfArriveN_inflight m _ rfl rfl]
    have : 1 + m = m + 1 := by omega
    simp [this]
  refine ⟨by rw [h2], by rw [h2], by rw [h2]; rfl, by rw [h2]; rfl, ?_⟩
  intro e hr
  subst hr
  rw [h2]
  rfl

/-- Witness for C9: two concurrent callers on a cold key, producer
failing, share one invocation; the failure is not cached and a third
call recomputes. -/
theorem cacheSingleflight_spec_w :
    (sfArriveN 2 sfCold).calls = 1 ∧
    (sfArriveN 2 sfCold).waiters = 2 ∧
    (sfComplete (sfArriveN 2 sfCold) (.error "boom")).2 =
      List.replicate 2 (.error "boom") ∧
    ((sfComplete (sfArriveN 2 sfCold) (.error "boom")).1.entry =
      match (Except.error "boom" : Except String Json) with
      | .ok v => some v | .error _ => none) ∧
    (∀ e, (Except.error "boom" : Except String Json) = .error e →
      (sfArrive (sfComplete (sfArriveN 2 sfCold) (.error "boom")).1).1.calls = 2) :=
  cacheSingleflight_spec 2 (by omega) (.error "boom")

/-! ### Lemmas about the direct-connection loop -/

/-- Unfolding of a direct-loop iteration whose request succeeds. -/
theorem directLoop_step_ok {net : Nat → Outcome} {jit : Nat → ℚ} {maxRetries : Nat}
    {attempt : Nat} {le : Option Error} {rem : Nat} {body : Json}
    (hnet : net attempt = .ok body) :
    directLoop net jit maxRetries attempt le (rem + 1) =
      ⟨some body, le, [.acquire, .direct attempt], attempt + 1⟩ := by
  simp [directLoop, hnet]

/-- Unfolding of a direct-loop iteration that hits an HTTP 403: the
loop breaks at once with the 403 stored in `last_error`. -/
theorem directLoop_step_403 {net : Nat → Outcome} {jit : Nat → ℚ} {maxRetries : Nat}
    {attempt : Nat} {le : Option Error} {rem : Nat}
    (hnet : net attempt = .httpErr 403) :
    directLoop net jit maxRetries attempt le (rem + 1) =
      ⟨none, some (.httpStatus 403), [.acquire, .direct attempt], attempt + 1⟩ := by
  simp [directLoop, hnet]

/-- Unfolding of a direct-loop iteration that hits a non-403 HTTP error
with attempts remaining: record the error, back off, retry. -/
theorem directLoop_step_httpErr {net : Nat → Outcome} {jit : Nat → ℚ} {maxRetries : Nat}
    {attempt : Nat} {le : Option Error} {rem : Nat} {s : Nat}
    (hnet : net attempt = .httpErr s) (hs : s ≠ 403) (hlt : attempt < maxRetries) :
    directLoop net jit maxRetries attempt le (rem + 1) =
      (let r := directLoop net jit maxRetries (attempt + 1) (some (.httpStatus s)) rem
       { r with trace := dblock jit attempt ++ r.trace }) := by
  simp [directLoop, hnet, hs, hlt, dblock]

/-- Unfolding of a direct-loop iteration that hits a request error with
attempts remaining: record the error, back off, retry. -/
theorem directLoop_step_reqErr {net : Nat → Outcome} {jit : Nat → ℚ} {maxRetries : Nat}
    {attempt : Nat} {le : Option Error} {rem : Nat}
    (hnet : net attempt = .reqErr) (hlt : attempt < maxRetries) :
    directLoop net jit maxRetries attempt le (rem + 1) =
      (let r := directLoop net jit maxRetries (attempt + 1) (some .requestError) rem
       { r with trace := dblock jit attempt ++ r.trace }) := by
  simp [directLoop, hnet, hlt, dblock]

/-- Behavior of the direct loop on a run whose outcomes at attempts
`a, ..., a+i-1` are transient failures and whose outcome at attempt
`a+i` is an HTTP 403: the loop performs exactly those attempts, with a
backoff block after each transient failure, then breaks on the 403
with it stored in `last_error`, with no sleep after the final attempt. -/
theorem directLoop_403 (net : Nat → Outcome) (jit : Nat → ℚ) (maxRetries : Nat) :
    ∀ (i a : Nat) (le : Option Error),
      a + i ≤ maxRetries →
      (∀ k, k < i → transientO (net (a + k))) →
      net (a + i) = .httpErr 403 →
      directLoop net jit maxRetries a le (maxRetries + 1 - a) =
        ⟨none, some (.httpStatus 403),
         ((List.range' a i).flatMap (dblock jit)) ++ [Event.acquire, Event.direct (a + i)],
         a + i + 1⟩ := by
  intro i
  induction i with
  | zero =>
    intro a le ha _ h403
    obtain ⟨r, hr⟩ : ∃ r, maxRetries + 1 - a = r + 1 := ⟨maxRetries - a, by omega⟩
    rw [Nat.add_zero] at h403
    rw [hr, directLoop_step_403 h403]
    simp
  | succ i ih =>
    intro a le ha htr h403
    obtain ⟨r, hr⟩ : ∃ r, maxRetries + 1 - a = r + 1 := ⟨maxRetries - a, by omega⟩
    have hrrec : r = maxRetries + 1 - (a + 1) := by omega
    have halt : a < maxRetries := by omega
    have ht0 := htr 0 (by omega)
    rw [Nat.add_zero] at ht0
    have hshift : ∀ k, k < i → transientO (net ((a + 1) + k)) := by
      intro k hk
      have h := htr (k + 1) (by omega)
      rwa [show a + (k + 1) = (a + 1) + k by omega] at h
    have h403' : net ((a + 1) + i) = .httpErr 403 := by
      rwa [show a + (i + 1) = (a + 1) + i by omega] at h403
    have hbnd : (a + 1) + i ≤ maxRetries := by omega
    have hblocks : (List.range' a (i + 1)).flatMap (dblock jit) =
        dblock jit a ++ (List.range' (a + 1) i).flatMap (dblock jit) := by
      rw [List.range'_succ]
      simp
    rw [hr]
    rcases ht0 with hreq | ⟨s, hs, hs403⟩
    · rw [directLoop_step_reqErr hreq halt, hrrec,
        ih (a + 1) (some .requestError) hbnd hshift h403']
      simp [hblocks, show a + (i + 1) = (a + 1) + i by omega]
    · rw [directLoop_step_httpErr hs hs403 halt, hrrec,
        ih (a + 1) (some (.httpStatus s)) hbnd hshift h403']
      simp [hblocks, show a + (i + 1) = (a + 1) + i by omega]

/-- Unfolding of the final direct-loop iteration hitting a non-403
HTTP error: no sleep, the loop then runs out of attempts. -/
theorem directLoop_step_httpErr_last {net : Nat → Outcome} {jit : Nat → ℚ}
    {maxRetries : Nat} {attempt : Nat} {le : Option Error} {rem : Nat} {s : Nat}
    (hnet : net attempt = .httpErr s) (hs : s ≠ 403) (hge : ¬attempt < maxRetries) :
    directLoop net jit maxRetries attempt le (rem + 1) =
      (let r := directLoop net jit maxRetries (attempt + 1) (some (.httpStatus s)) rem
       { r with trace := .acquire :: .direct attempt :: r.trace }) := by
  simp [directLoop, hnet, hs, hge]

/-- Unfolding of the final direct-loop iteration hitting a request
error: no sleep, the loop then runs out of attempts. -/
theorem directLoop_step_reqErr_last {net : Nat → Outcome} {jit : Nat → ℚ}
    {maxRetries : Nat} {attempt : Nat} {le : Option Error} {rem : Nat}
    (hnet : net attempt = .reqErr) (hge : ¬attempt < maxRetries) :
    directLoop net jit maxRetries attempt le (rem + 1) =
      (let r := directLoop net jit maxRetries (attempt + 1) (some .requestError) rem
       { r with trace := .acquire :: .direct attempt :: r.trace }) := by
  simp [directLoop, hnet, hge]

/-- Every event emitted by the direct loop is a limiter acquisition, a
direct attempt, or a direct backoff sleep. -/
theorem directLoop_dOnly (net : Nat → Outcome) (jit : Nat → ℚ) (maxRetries : Nat) :
    ∀ (rem attempt : Nat) (le : Option Error),
      (directLoop net jit maxRetries attempt le rem).trace.all dOnly = true := by
  intro rem
  induction rem with
  | zero => intro attempt le; simp [directLoop]
  | succ rem ih =>
    intro attempt le
    cases hnet : net attempt with
    | ok body => rw [directLoop_step_ok hnet]; simp [dOnly]
    | httpErr s =>
      by_cases h403 : s = 403
      · subst h403; rw [directLoop_step_403 hnet]; simp [dOnly]
      · by_cases hlt : attempt < maxRetries
        · rw [directLoop_step_httpErr hnet h403 hlt]
          simp [dblock, dOnly, ih]
        · rw [directLoop_step_httpErr_last hnet h403 hlt]
          simp [dOnly, ih]
    | reqErr =>
      by_cases hlt : attempt < maxRetries
      · rw [directLoop_step_reqErr hnet hlt]
        simp [dblock, dOnly, ih]
      · rw [directLoop_step_reqErr_last hnet hlt]
        simp [dOnly, ih]

/-- The direct loop issues at most one HTTP attempt per remaining loop
iteration. -/
theorem directLoop_count (net : Nat → Outcome) (jit : Nat → ℚ) (maxRetries : Nat) :
    ∀ (rem attempt : Nat) (le : Option Error),
      ((directLoop net jit maxRetries attempt le rem).trace.filter isDirectEvt).length
        ≤ rem := by
  intro rem
  induction rem with
  | zero => intro attempt le; simp [directLoop]
  | succ rem ih =>
    intro attempt le
    cases hnet : net attempt with
    | ok body => rw [directLoop_step_ok hnet]; simp [isDirectEvt]
    | httpErr s =>
      by_cases h403 : s = 403
      · subst h403; rw [directLoop_step_403 hnet]; simp [isDirectEvt]
      · by_cases hlt : attempt < maxRetries
        · rw [directLoop_step_httpErr hnet h403 hlt]
          simp only [List.filter_append]
          simp [dblock, isDirectEvt]
          exact ih (attempt + 1) (some (.httpStatus s))
        · rw [directLoop_step_httpErr_last hnet h403 hlt]
          simp [isDirectEvt]
          exact ih (attempt + 1) (some (.httpStatus s))
    | reqErr =>
      by_cases hlt : attempt < maxRetries
      · rw [directLoop_step_reqErr hnet hlt]
        simp only [List.filter_append]
        simp [dblock, isDirectEvt]
        exact ih (attempt + 1) (some .requestError)
      · rw [directLoop_step_reqErr_last hnet hlt]
        simp [isDirectEvt]
        exact ih (attempt + 1) (some .requestError)

/-- Every backoff sleep of the direct loop occurs at an attempt index
with retries remaining and carries delay `2 ^ attempt + jitter`. -/
theorem directLoop_sleep (net : Nat → Outcome) (jit : Nat → ℚ) (maxRetries : Nat) :
    ∀ (rem attempt : Nat) (le : Option Error) (n : Nat) (d : ℚ),
      Event.sleepDirect n d ∈ (directLoop net jit maxRetries attempt le rem).trace →
        n < maxRetries ∧ d = (2 ^ n : ℚ) + jit n := by
  intro rem
  induction rem with
  | zero => intro attempt le n d h; simp [directLoop] at h
  | succ rem ih =>
    intro attempt le n d h
    cases hnet : net attempt with
    | ok body => rw [directLoop_step_ok hnet] at h; simp at h
    | httpErr s =>
      by_cases h403 : s = 403
      · subst h403; rw [directLoop_step_403 hnet] at h; simp at h
      · by_cases hlt : attempt < maxRetries
        · rw [directLoop_step_httpErr hnet h403 hlt] at h
          simp [dblock] at h
          rcases h with ⟨rfl, rfl⟩ | h
          · exact ⟨hlt, rfl⟩
          · exact ih (attempt + 1) (some (.httpStatus s)) n d h
        · rw [directLoop_step_httpErr_last hnet h403 hlt] at h
          simp at h
          exact ih (attempt + 1) (some (.httpStatus s)) n d h
    | reqErr =>
      by_cases hlt : attempt < maxRetries
      · rw [directLoop_step_reqErr hnet hlt] at h
        simp [dblock] at h
        rcases h with ⟨rfl, rfl⟩ | h
        · exact ⟨hlt, rfl⟩
        · exact ih (attempt + 1) (some .requestError) n d h
      · rw [directLoop_step_reqErr_last hnet hlt] at h
        simp at h
        exact ih (attempt + 1) (some .requestError) n d h

/-! ### Lemmas about the proxy phase and the raise epilogue -/

/-- An event cannot belong to a trace whose events all satisfy a
predicate it falsifies. -/
theorem not_mem_of_all_not {tr : List Event} {q : Event → Bool} {e : Event}
    (hall : tr.all q = true) (he : q e = false) : e ∉ tr := by
  intro hmem
  have h := List.all_eq_true.mp hall e hmem
  rw [he] at h
  exact Bool.noConfusion h

/-- Every event emitted by the per-proxy retry loop is a limiter
acquisition, a proxied attempt, or a proxy backoff sleep. -/
theorem proxyRetryLoop_pOnly (net : Nat → Outcome) (jit : Nat → ℚ) (proxy : String) :
    ∀ (rem retry nidx : Nat),
      (proxyRetryLoop net jit proxy retry rem nidx).trace.all pOnly = true := by
  intro rem
  induction rem with
  | zero => intro retry nidx; simp [proxyRetryLoop]
  | succ rem ih =>
    intro retry nidx
    cases hnet : net nidx with
    | ok body => simp [proxyRetryLoop, hnet, pOnly]
    | httpErr s =>
      by_cases h403 : s = 403
      · subst h403; simp [proxyRetryLoop, hnet, pOnly]
      · by_cases hlt : retry < PROXY_MAX_RETRIES - 1
        · simp [proxyRetryLoop, hnet, h403, hlt, pOnly, ih]
        · simp [proxyRetryLoop, hnet, h403, hlt, pOnly, ih]
    | reqErr =>
      by_cases hlt : retry < PROXY_MAX_RETRIES - 1
      · simp [proxyRetryLoop, hnet, hlt, pOnly, ih]
      · simp [proxyRetryLoop, hnet, hlt, pOnly]

/-- Every event emitted by the proxy-rotation loop is a limiter
acquisition, a proxied attempt, or a proxy backoff sleep. -/
theorem proxyLoop_pOnly (net : Nat → Outcome) (jit : Nat → ℚ) (proxies : List String) :
    ∀ (rem pidx nidx : Nat),
      (proxyLoop net jit proxies rem pidx nidx).trace.all pOnly = true := by
  intro rem
  induction rem with
  | zero => intro pidx nidx; simp [proxyLoop]
  | succ rem ih =>
    intro pidx nidx
    cases hnp : getNextProxy true proxies pidx with
    | none => simp [proxyLoop, hnp]
    | some v =>
      obtain ⟨op, pidx'⟩ := v
      cases op with
      | none => simp [proxyLoop, hnp]
      | some proxy =>
        by_cases hpe : proxy = ""
        · simp [proxyLoop, hnp, hpe]
        · cases hb : (proxyRetryLoop net jit proxy 0 PROXY_MAX_RETRIES nidx).body with
          | some body =>
            simp [proxyLoop, hnp, hpe, hb, proxyRetryLoop_pOnly]
          | none =>
            simp [proxyLoop, hnp, hpe, hb, List.all_append,
              proxyRetryLoop_pOnly, ih]

/-- A per-proxy retry loop with at least one retry remaining opens its
trace with an acquisition followed by the proxied attempt. -/
theorem proxyRetryLoop_start (net : Nat → Outcome) (jit : Nat → ℚ) (proxy : String)
    (retry rem nidx : Nat) (hrem : 1 ≤ rem) :
    ∃ rest, (proxyRetryLoop net jit proxy retry rem nidx).trace =
      .acquire :: .proxyReq proxy retry :: rest := by
  obtain ⟨rem', rfl⟩ : ∃ m, rem = m + 1 := ⟨rem - 1, by omega⟩
  cases hnet : net nidx with
  | ok body => exact ⟨[], by simp [proxyRetryLoop, hnet]⟩
  | httpErr s =>
    by_cases h403 : s = 403
    · subst h403
      exact ⟨[], by simp [proxyRetryLoop, hnet]⟩
    · by_cases hlt : retry < PROXY_MAX_RETRIES - 1
      · exact ⟨.sleepProxy (1 + jit nidx / 2) ::
            (proxyRetryLoop net jit proxy (retry + 1) rem' (nidx + 1)).trace,
          by simp [proxyRetryLoop, hnet, h403, hlt]⟩
      · exact ⟨(proxyRetryLoop net jit proxy (retry + 1) rem' (nidx + 1)).trace,
          by simp [proxyRetryLoop, hnet, h403, hlt]⟩
  | reqErr =>
    by_cases hlt : retry < PROXY_MAX_RETRIES - 1
    · exact ⟨.sleepProxy (1 + jit nidx / 2) ::
          (proxyRetryLoop net jit proxy (retry + 1) rem' (nidx + 1)).trace,
        by simp [proxyRetryLoop, hnet, hlt]⟩
    · exact ⟨[], by simp [proxyRetryLoop, hnet, hlt]⟩

/-- With rotation enabled and a nonempty pool, `_get_next_proxy`
returns a proxy from the pool. -/
theorem getNextProxy_nonempty (proxies : List String) (pidx : Nat)
    (h : proxies ≠ []) :
    ∃ p pidx', getNextProxy true proxies pidx = some (some p, pidx') ∧
      p ∈ proxies := by
  have hlen : 0 < proxies.length := List.length_pos.2 h
  by_cases hge : proxies.length ≤ pidx
  · obtain ⟨p, hp⟩ : ∃ p, proxies[0]? = some p := ⟨proxies[0], by simp [hlen]⟩
    refine ⟨p, 1, ?_, ?_⟩
    · simp [getNextProxy, hge, hp]
    · exact List.getElem?_mem hp
  · have hpl : pidx < proxies.length := by omega
    obtain ⟨p, hp⟩ : ∃ p, proxies[pidx]? = some p :=
      ⟨proxies.get ⟨pidx, hpl⟩, by simp [List.getElem?_eq_getElem hpl]⟩
    refine ⟨p, pidx + 1, ?_, ?_⟩
    · simp [getNextProxy, hge, hp]
    · exact List.getElem?_mem hp

/-- With a nonempty pool of nonempty proxy URIs and at least one
rotation slot, the proxy phase opens its trace with an acquisition
followed by a first proxied attempt. -/
theorem proxyLoop_start (net : Nat → Outcome) (jit : Nat → ℚ) (proxies : List String)
    (rem pidx nidx : Nat) (hne : proxies ≠ []) (hnb : ∀ p ∈ proxies, p ≠ "")
    (hrem : 1 ≤ rem) :
    ∃ p rest, (proxyLoop net jit proxies rem pidx nidx).trace =
      .acquire :: .proxyReq p 0 :: rest := by
  obtain ⟨rem', rfl⟩ : ∃ m, rem = m + 1 := ⟨rem - 1, by omega⟩
  obtain ⟨p, pidx', hnp, hpm⟩ := getNextProxy_nonempty proxies pidx hne
  have hpne : ¬p = "" := hnb p hpm
  obtain ⟨rest0, hrl⟩ := proxyRetryLoop_start net jit p 0 PROXY_MAX_RETRIES nidx
    (by norm_num [PROXY_MAX_RETRIES])
  cases hb : (proxyRetryLoop net jit p 0 PROXY_MAX_RETRIES nidx).body with
  | some body =>
    exact ⟨p, rest0, by simp [proxyLoop, hnp, hpne, hb, hrl]⟩
  | none =>
    refine ⟨p, rest0 ++ (proxyLoop net jit proxies rem' pidx'
      (proxyRetryLoop net jit p 0 PROXY_MAX_RETRIES nidx).nextNet).trace, ?_⟩
    simp [proxyLoop, hnp, hpne, hb, hrl]

/-- The raise epilogue emits only the diagnostic log event. -/
theorem raisePhase_log (ctx : Ctx) (le : Option Error) :
    (raisePhase ctx le).2.all isLogEvt = true := by
  unfold raisePhase
  by_cases h : is403Err le = true
  · cases le with
    | none => simp [h, isLogEvt]
    | some e => simp [h, isLogEvt]
  · cases le with
    | none => simp [h]
    | some e => simp [h]

/-- The raise epilogue re-raises exactly the stored `last_error`. -/
theorem raisePhase_result (ctx : Ctx) (le : Option Error) (e : Error)
    (h : (raisePhase ctx le).1 = .failure e) : le = some e := by
  unfold raisePhase at h
  cases le with
  | none => simp at h
  | some e' =>
    simp at h
    rw [h]

/-! ### Rate-limiter guard lemmas -/

/-- Guardedness composes across concatenation when the suffix is
guarded after any predecessor. -/
theorem guardedAfter_append {xs ys : List Event} {p : Event}
    (hx : guardedAfter p xs = true) (hy : ∀ q, guardedAfter q ys = true) :
    guardedAfter p (xs ++ ys) = true := by
  induction xs generalizing p with
  | nil => simpa using hy p
  | cons x xs ih =>
    simp only [guardedAfter, Bool.and_eq_true] at hx
    simp only [List.cons_append, guardedAfter, Bool.and_eq_true]
    exact ⟨hx.1, ih hx.2⟩

/-- The direct-loop trace is guarded after any predecessor event: each
attempt follows its own acquisition. -/
theorem directLoop_guarded (net : Nat → Outcome) (jit : Nat → ℚ) (maxRetries : Nat) :
    ∀ (rem attempt : Nat) (le : Option Error) (p : Event),
      guardedAfter p (directLoop net jit maxRetries attempt le rem).trace = true := by
  intro rem
  induction rem with
  | zero => intro attempt le p; simp [directLoop, guardedAfter]
  | succ rem ih =>
    intro attempt le p
    cases hnet : net attempt with
    | ok body =>
      rw [directLoop_step_ok hnet]
      simp [guardedAfter, isAttemptEvt, isDirectEvt, isProxyEvt]
    | httpErr s =>
      by_cases h403 : s = 403
      · subst h403
        rw [directLoop_step_403 hnet]
        simp [guardedAfter, isAttemptEvt, isDirectEvt, isProxyEvt]
      · by_cases hlt : attempt < maxRetries
        · rw [directLoop_step_httpErr hnet h403 hlt]
          simp [dblock, guardedAfter, isAttemptEvt, isDirectEvt, isProxyEvt, ih]
        · rw [directLoop_step_httpErr_last hnet h403 hlt]
          simp [guardedAfter, isAttemptEvt, isDirectEvt, isProxyEvt, ih]
    | reqErr =>
      by_cases hlt : attempt < maxRetries
      · rw [directLoop_step_reqErr hnet hlt]
        simp [dblock, guardedAfter, isAttemptEvt, isDirectEvt, isProxyEvt, ih]
      · rw [directLoop_step_reqErr_last hnet hlt]
        simp [guardedAfter, isAttemptEvt, isDirectEvt, isProxyEvt, ih]

/-- The per-proxy retry-loop trace is guarded after any predecessor. -/
theorem proxyRetryLoop_guarded (net : Nat → Outcome) (jit : Nat → ℚ) (proxy : String) :
    ∀ (rem retry nidx : Nat) (p : Event),
      guardedAfter p (proxyRetryLoop net jit proxy retry rem nidx).trace = true := by
  intro rem
  induction rem with
  | zero => intro retry nidx p; simp [proxyRetryLoop, guardedAfter]
  | succ rem ih =>
    intro retry nidx p
    cases hnet : net nidx with
    | ok body =>
      simp [proxyRetryLoop, hnet, guardedAfter, isAttemptEvt, isDirectEvt, isProxyEvt]
    | httpErr s =>
      by_cases h403 : s = 403
      · subst h403
        simp [proxyRetryLoop, hnet, guardedAfter, isAttemptEvt, isDirectEvt, isProxyEvt]
      · by_cases hlt : retry < PROXY_MAX_RETRIES - 1
        · simp [proxyRetryLoop, hnet, h403, hlt, guardedAfter,
            isAttemptEvt, isDirectEvt, isProxyEvt, ih]
        · simp [proxyRetryLoop, hnet, h403, hlt, guardedAfter,
            isAttemptEvt, isDirectEvt, isProxyEvt, ih]
    | reqErr =>
      by_cases hlt : retry < PROXY_MAX_RETRIES - 1
      · simp [proxyRetryLoop, hnet, hlt, guardedAfter,
          isAttemptEvt, isDirectEvt, isProxyEvt, ih]
      · simp [proxyRetryLoop, hnet, hlt, guardedAfter,
          isAttemptEvt, isDirectEvt, isProxyEvt]

/-- The proxy-rotation-loop trace is guarded after any predecessor. -/
theorem proxyLoop_guarded (net : Nat → Outcome) (jit : Nat → ℚ) (proxies : List String) :
    ∀ (rem pidx nidx : Nat) (p : Event),
      guardedAfter p (proxyLoop net jit proxies rem pidx nidx).trace = true := by
  intro rem
  induction rem with
  | zero => intro pidx nidx p; simp [proxyLoop, guardedAfter]
  | succ rem ih =>
    intro pidx nidx p
    cases hnp : getNextProxy true proxies pidx with
    | none => simp [proxyLoop, hnp, guardedAfter]
    | some v =>
      obtain ⟨op, pidx'⟩ := v
      cases op with
      | none => simp [proxyLoop, hnp, guardedAfter]
      | some proxy =>
        by_cases hpe : proxy = ""
        · simp [proxyLoop, hnp, hpe, guardedAfter]
        · cases hb : (proxyRetryLoop net jit proxy 0 PROXY_MAX_RETRIES nidx).body with
          | some body =>
            simp [proxyLoop, hnp, hpe, hb, proxyRetryLoop_guarded]
          | none =>
            simp only [proxyLoop, hnp, hpe, if_neg hpe, hb]
            exact guardedAfter_append (proxyRetryLoop_guarded net jit proxy _ _ _ p)
              (fun q => ih pidx' _ q)

/-- The raise epilogue is guarded after any predecessor (it contains no
attempts). -/
theorem raisePhase_guarded (ctx : Ctx) (le : Option Error) (p : Event) :
    guardedAfter p (raisePhase ctx le).2 = true := by
  unfold raisePhase
  by_cases h : is403Err le = true
  · cases le <;> simp [h, guardedAfter, isAttemptEvt, isDirectEvt, isProxyEvt]
  · cases le <;> simp [h, guardedAfter]

/-- A trace guarded after every predecessor and not opening with an
attempt is well guarded. -/
theorem wellGuarded_of_guarded {tr : List Event}
    (h : ∀ p, guardedAfter p tr = true) : wellGuarded tr = true := by
  cases tr with
  | nil => rfl
  | cons e rest =>
    have he := h (Event.direct 0)
    simp only [guardedAfter, Bool.and_eq_true, Bool.or_eq_true] at he
    obtain ⟨h1, h2⟩ := he
    simp only [wellGuarded, Bool.and_eq_true]
    refine ⟨?_, h2⟩
    rcases h1 with h1 | h1
    · exact h1
    · rw [beq_iff_eq] at h1
      exact absurd h1 (by simp)

/-- In a trace guarded after `p`, the event before any attempt at
position `k` (position `k` of `p :: tr`) is an acquisition. -/
theorem guardedAfter_get (tr : List Event) : ∀ (p : Event),
    guardedAfter p tr = true →
    ∀ k e, tr.get? k = some e → isAttemptEvt e = true →
      (p :: tr).get? k = some Event.acquire := by
  induction tr with
  | nil => intro p _ k e hk; simp at hk
  | cons x rest ih =>
    intro p hg k e hk hatt
    simp only [guardedAfter, Bool.and_eq_true, Bool.or_eq_true] at hg
    obtain ⟨h1, h2⟩ := hg
    cases k with
    | zero =>
      simp only [List.get?] at hk
      injection hk with hk
      subst hk
      rcases h1 with h1 | h1
      · rw [hatt] at h1
        exact absurd h1 (by simp)
      · have : p = Event.acquire := by simpa using h1
        subst this
        rfl
    | succ k =>
      simp only [List.get?] at hk
      exact ih x h2 k e hk hatt

/-- In a well-guarded trace, every attempt has an acquisition right
before it. -/
theorem wellGuarded_attempt_pred {tr : List Event} (hwg : wellGuarded tr = true) :
    ∀ k e, tr.get? k = some e → isAttemptEvt e = true →
      ∃ j, k = j + 1 ∧ tr.get? j = some Event.acquire := by
  cases tr with
  | nil => intro k e hk; simp at hk
  | cons x rest =>
    intro k e hk hatt
    simp only [wellGuarded, Bool.and_eq_true] at hwg
    obtain ⟨hx, hg⟩ := hwg
    cases k with
    | zero =>
      simp only [List.get?] at hk
      injection hk with hk
      subst hk
      rw [hatt] at hx
      exact absurd hx (by simp)
    | succ k =>
      simp only [List.get?] at hk
      exact ⟨k, rfl, guardedAfter_get rest x hg k e hk hatt⟩

/-! ### Trace structure of a whole _make_request call -/

/-- Every event of the whole call trace is guarded after any
predecessor event. -/
theorem make_request_guarded_aux (ctx : Ctx) (maxRetries : Nat) (net : Nat → Outcome)
    (jit : Nat → ℚ) (pidx : Nat) (p : Event) :
    guardedAfter p (make_request ctx maxRetries net jit pidx).trace = true := by
  unfold make_request
  cases hb : (directLoop net jit maxRetries 0 none (maxRetries + 1)).body with
  | some body =>
    simp only [hb]
    exact directLoop_guarded net jit maxRetries _ _ _ p
  | none =>
    simp only [hb]
    cases hgd : ctx.proxyRotationEnabled &&
        is403Err (directLoop net jit maxRetries 0 none (maxRetries + 1)).lastErr with
    | false =>
      simp only [hgd, Bool.false_eq_true, if_false]
      exact guardedAfter_append (directLoop_guarded net jit maxRetries _ _ _ p)
        (fun q => raisePhase_guarded ctx _ q)
    | true =>
      simp only [hgd, if_true]
      cases hpb : (proxyLoop net jit ctx.proxyList ctx.proxyList.length pidx
          (directLoop net jit maxRetries 0 none (maxRetries + 1)).nextNet).body with
      | some body =>
        simp only [hpb]
        exact guardedAfter_append (directLoop_guarded net jit maxRetries _ _ _ p)
          (fun q => proxyLoop_guarded net jit ctx.proxyList _ _ _ q)
      | none =>
        simp only [hpb]
        cases hcr : (proxyLoop net jit ctx.proxyList ctx.proxyList.length pidx
            (directLoop net jit maxRetries 0 none (maxRetries + 1)).nextNet).crashed with
        | true =>
          simp only [hcr, if_true]
          exact guardedAfter_append (directLoop_guarded net jit maxRetries _ _ _ p)
            (fun q => proxyLoop_guarded net jit ctx.proxyList _ _ _ q)
        | false =>
          simp only [hcr, Bool.false_eq_true, if_false]
          exact guardedAfter_append
            (guardedAfter_append (directLoop_guarded net jit maxRetries _ _ _ p)
              (fun q => proxyLoop_guarded net jit ctx.proxyList _ _ _ q))
            (fun q => raisePhase_guarded ctx _ q)

/-- The whole call trace is well guarded. -/
theorem make_request_wellGuarded (ctx : Ctx) (maxRetries : Nat) (net : Nat → Outcome)
    (jit : Nat → ℚ) (pidx : Nat) :
    wellGuarded (make_request ctx maxRetries net jit pidx).trace = true :=
  wellGuarded_of_guarded (make_request_guarded_aux ctx maxRetries net jit pidx)

/-- Weaken an `all` along the right disjunct. -/
theorem all_orR {tr : List Event} {p q : Event → Bool} (h : tr.all q = true) :
    tr.all (fun e => p e || q e) = true := by
  rw [List.all_eq_true] at h ⊢
  intro e he
  simp [h e he]

/-- Weaken an `all` along the left disjunct. -/
theorem all_orL {tr : List Event} {p q : Event → Bool} (h : tr.all p = true) :
    tr.all (fun e => p e || q e) = true := by
  rw [List.all_eq_true] at h ⊢
  intro e he
  simp [h e he]

/-- The call trace is the direct-phase trace followed by a tail of
proxy-phase and log events only. -/
theorem make_request_split (ctx : Ctx) (maxRetries : Nat) (net : Nat → Outcome)
    (jit : Nat → ℚ) (pidx : Nat) :
    ∃ tail, (make_request ctx maxRetries net jit pidx).trace =
      (directLoop net jit maxRetries 0 none (maxRetries + 1)).trace ++ tail ∧
      tail.all (fun e => pOnly e || isLogEvt e) = true := by
  unfold make_request
  cases hb : (directLoop net jit maxRetries 0 none (maxRetries + 1)).body with
  | some body =>
    refine ⟨[], ?_, rfl⟩
    simp [hb]
  | none =>
    simp only [hb]
    cases hgd : ctx.proxyRotationEnabled &&
        is403Err (directLoop net jit maxRetries 0 none (maxRetries + 1)).lastErr with
    | false =>
      simp only [hgd, Bool.false_eq_true, if_false]
      exact ⟨_, rfl, all_orR (raisePhase_log ctx _)⟩
    | true =>
      simp only [hgd, if_true]
      cases hpb : (proxyLoop net jit ctx.proxyList ctx.proxyList.length pidx
          (directLoop net jit maxRetries 0 none (maxRetries + 1)).nextNet).body with
      | some body =>
        simp only [hpb]
        exact ⟨_, rfl, all_orL (proxyLoop_pOnly net jit ctx.proxyList _ _ _)⟩
      | none =>
        simp only [hpb]
        cases hcr : (proxyLoop net jit ctx.proxyList ctx.proxyList.length pidx
            (directLoop net jit maxRetries 0 none (maxRetries + 1)).nextNet).crashed with
        | true =>
          simp only [hcr, if_true]
          exact ⟨_, rfl, all_orL (proxyLoop_pOnly net jit ctx.proxyList _ _ _)⟩
        | false =>
          simp only [hcr, Bool.false_eq_true, if_false]
          refine ⟨(proxyLoop net jit ctx.proxyList ctx.proxyList.length pidx
              (directLoop net jit maxRetries 0 none (maxRetries + 1)).nextNet).trace ++
              (raisePhase ctx
                (directLoop net jit maxRetries 0 none (maxRetries + 1)).lastErr).2,
            by simp, ?_⟩
          rw [List.all_append]
          exact (Bool.and_eq_true _ _).mpr
            ⟨all_orL (proxyLoop_pOnly net jit ctx.proxyList _ _ _),
             all_orR (raisePhase_log ctx _)⟩

/-- A trace of proxy-phase events contains no direct attempt. -/
theorem filter_isDirect_of_pOnly {tr : List Event}
    (h : tr.all (fun e => pOnly e || isLogEvt e) = true) :
    tr.filter isDirectEvt = [] := by
  rw [List.filter_eq_nil_iff]
  intro e he hde
  have hq := List.all_eq_true.mp h e he
  cases e <;> simp_all [pOnly, isLogEvt, isDirectEvt]

/-- Claim C6: within one `_make_request` call, every HTTP attempt —
direct or proxied — is immediately preceded by a completed
`rate_limiter.acquire()` on the shared limiter; no request is issued
without first consuming the rate-limit budget. -/
theorem fetchAttempts_rateLimited (ctx : Ctx) (maxRetries : Nat) (net : Nat → Outcome)
    (jit : Nat → ℚ) (pidx k : Nat) (e : Event)
    (hk : (make_request ctx maxRetries net jit pidx).trace.get? k = some e)
    (he : isAttemptEvt e = true) :
    ∃ j, k = j + 1 ∧
      (make_request ctx maxRetries net jit pidx).trace.get? j = some Event.acquire :=
  wellGuarded_attempt_pred (make_request_wellGuarded ctx maxRetries net jit pidx) k e hk he

/-- Witness for C6: in a run that succeeds at once, the single direct
attempt at position 1 is preceded by the acquisition at position 0. -/
theorem fetchAttempts_rateLimited_w :
    ∃ j, 1 = j + 1 ∧
      (make_request ⟨false, []⟩ 3 (fun _ => .ok (.obj [])) (fun _ => 0) 0).trace.get? j =
        some Event.acquire :=
  fetchAttempts_rateLimited ⟨false, []⟩ 3 (fun _ => .ok (.obj [])) (fun _ => 0) 0 1
    (.direct 0) rfl rfl

/-- Claim C5: with the default retry limit 3, at most 4 direct attempts
are issued, and the backoff after each transiently-failed direct
attempt `i` (with attempts remaining) sleeps for `2 ^ i` seconds plus a
jitter drawn from the unit interval. -/
theorem backoffPolicy_spec (ctx : Ctx) (net : Nat → Outcome) (jit : Nat → ℚ) (pidx : Nat)
    (hj : ∀ n, 0 ≤ jit n ∧ jit n < 1) :
    ((make_request ctx 3 net jit pidx).trace.filter isDirectEvt).length ≤ 4 ∧
    (∀ i d, Event.sleepDirect i d ∈ (make_request ctx 3 net jit pidx).trace →
      i < 3 ∧ (2 ^ i : ℚ) ≤ d ∧ d < (2 ^ i : ℚ) + 1) := by
  obtain ⟨tail, htr, htail⟩ := make_request_split ctx 3 net jit pidx
  constructor
  · rw [htr, List.filter_append, filter_isDirect_of_pOnly htail, List.append_nil]
    exact directLoop_count net jit 3 4 0 none
  · intro i d hmem
    rw [htr] at hmem
    rcases List.mem_append.mp hmem with hmem | hmem
    · obtain ⟨hlt, heq⟩ := directLoop_sleep net jit 3 4 0 none i d hmem
      obtain ⟨hj0, hj1⟩ := hj i
      subst heq
      exact ⟨hlt, by linarith, by linarith⟩
    · have h := List.all_eq_true.mp htail _ hmem
      simp [pOnly, isLogEvt] at h

/-- Witness for C5: a run of persistent request errors issues exactly
4 direct attempts with the stated backoff at each retry. -/
theorem backoffPolicy_spec_w :
    ((make_request ⟨false, []⟩ 3 (fun _ => .reqErr) (fun _ => 1 / 2) 0).trace.filter
      isDirectEvt).length ≤ 4 ∧
    (∀ i d, Event.sleepDirect i d ∈
        (make_request ⟨false, []⟩ 3 (fun _ => .reqErr) (fun _ => 1 / 2) 0).trace →
      i < 3 ∧ (2 ^ i : ℚ) ≤ d ∧ d < (2 ^ i : ℚ) + 1) :=
  backoffPolicy_spec ⟨false, []⟩ (fun _ => .reqErr) (fun _ => 1 / 2) 0
    (fun _ => by norm_num)

/-- Exhaustive description of a `_make_request` run in terms of its
direct phase `dOut` and proxy phase `pOut`: direct success, failure
without proxy escalation, or the guarded proxy phase ending in
success, crash, or re-raise. -/
theorem make_request_cases (ctx : Ctx) (maxRetries : Nat) (net : Nat → Outcome)
    (jit : Nat → ℚ) (pidx : Nat) :
    (∃ body, (dOut net jit maxRetries).body = some body ∧
       make_request ctx maxRetries net jit pidx =
         ⟨.success body, (dOut net jit maxRetries).trace, pidx⟩) ∨
    ((dOut net jit maxRetries).body = none ∧
       (ctx.proxyRotationEnabled && is403Err (dOut net jit maxRetries).lastErr) = false ∧
       make_request ctx maxRetries net jit pidx =
         ⟨(raisePhase ctx (dOut net jit maxRetries).lastErr).1,
          (dOut net jit maxRetries).trace ++
            (raisePhase ctx (dOut net jit maxRetries).lastErr).2, pidx⟩) ∨
    ((dOut net jit maxRetries).body = none ∧
       (ctx.proxyRotationEnabled && is403Err (dOut net jit maxRetries).lastErr) = true ∧
       ((∃ body, (pOut ctx net jit maxRetries pidx).body = some body ∧
           make_request ctx maxRetries net jit pidx =
             ⟨.success body,
              (dOut net jit maxRetries).trace ++ (pOut ctx net jit maxRetries pidx).trace,
              (pOut ctx net jit maxRetries pidx).proxyIdx⟩) ∨
        ((pOut ctx net jit maxRetries pidx).body = none ∧
           (pOut ctx net jit maxRetries pidx).crashed = true ∧
           make_request ctx maxRetries net jit pidx =
             ⟨.crash,
              (dOut net jit maxRetries).trace ++ (pOut ctx net jit maxRetries pidx).trace,
              (pOut ctx net jit maxRetries pidx).proxyIdx⟩) ∨
        ((pOut ctx net jit maxRetries pidx).body = none ∧
           (pOut ctx net jit maxRetries pidx).crashed = false ∧
           make_request ctx maxRetries net jit pidx =
             ⟨(raisePhase ctx (dOut net jit maxRetries).lastErr).1,
              (dOut net jit maxRetries).trace ++ (pOut ctx net jit maxRetries pidx).trace ++
                (raisePhase ctx (dOut net jit maxRetries).lastErr).2,
              (pOut ctx net jit maxRetries pidx).proxyIdx⟩))) := by
  unfold make_request pOut dOut
  cases hb : (directLoop net jit maxRetries 0 none (maxRetries + 1)).body with
  | some body =>
    exact Or.inl ⟨body, rfl, by simp [hb]⟩
  | none =>
    cases hgd : ctx.proxyRotationEnabled &&
        is403Err (directLoop net jit maxRetries 0 none (maxRetries + 1)).lastErr with
    | false =>
      exact Or.inr (Or.inl ⟨rfl, rfl, by simp [hb, hgd]⟩)
    | true =>
      refine Or.inr (Or.inr ⟨rfl, rfl, ?_⟩)
      cases hpb : (proxyLoop net jit ctx.proxyList ctx.proxyList.length pidx
          (directLoop net jit maxRetries 0 none (maxRetries + 1)).nextNet).body with
      | some body =>
        exact Or.inl ⟨body, rfl, by simp [hb, hgd, hpb]⟩
      | none =>
        cases hcr : (proxyLoop net jit ctx.proxyList ctx.proxyList.length pidx
            (directLoop net jit maxRetries 0 none (maxRetries + 1)).nextNet).crashed with
        | true =>
          exact Or.inr (Or.inl ⟨rfl, rfl, by simp [hb, hgd, hpb, hcr]⟩)
        | false =>
          exact Or.inr (Or.inr ⟨rfl, rfl, by simp [hb, hgd, hpb, hcr]⟩)

/-- The direct attempts inside a run of backoff blocks are exactly the
block indices. -/
theorem filter_flatMap_dblock (jit : Nat → ℚ) :
    ∀ l : List Nat, ((l.flatMap (dblock jit)).filter isDirectEvt) = l.map Event.direct := by
  intro l
  induction l with
  | nil => rfl
  | cons n rest ih => simp [dblock, isDirectEvt, ih]

/-- A run of backoff blocks contains only direct-phase events. -/
theorem flatMap_dblock_dOnly (jit : Nat → ℚ) :
    ∀ l : List Nat, ((l.flatMap (dblock jit)).all dOnly) = true := by
  intro l
  induction l with
  | nil => rfl
  | cons n rest ih => simp [dblock, dOnly, ih]

/-- A true `is403Err` pins down the stored error. -/
theorem is403Err_eq {le : Option Error} (h : is403Err le = true) :
    le = some (.httpStatus 403) := by
  cases le with
  | none => simp [is403Err] at h
  | some e =>
    cases e with
    | httpStatus s =>
      simp [is403Err] at h
      rw [h]
    | requestError => simp [is403Err] at h

/-- Any stored error other than a 403 fails the `is403Err` guard. -/
theorem is403Err_ne {e : Error} (h : e ≠ .httpStatus 403) :
    is403Err (some e) = false := by
  cases e with
  | httpStatus s =>
    have : s ≠ 403 := fun hs => h (by rw [hs])
    simp [is403Err, this]
  | requestError => rfl

/-- The direct phase of the run described by claim C1: transient
outcomes up to attempt `i`, then a 403. -/
theorem dOut_403 (net : Nat → Outcome) (jit : Nat → ℚ) (maxRetries i : Nat)
    (hi : i ≤ maxRetries)
    (htrans : ∀ k, k < i → transientO (net k))
    (h403 : net i = .httpErr 403) :
    dOut net jit maxRetries =
      ⟨none, some (.httpStatus 403),
       (List.range' 0 i).flatMap (dblock jit) ++ [Event.acquire, Event.direct i],
       i + 1⟩ := by
  have h := directLoop_403 net jit maxRetries i 0 none (by omega)
    (fun k hk => by simpa using htrans k hk) (by simpa using h403)
  simpa [dOut] using h

/-- Claim C1: once a direct attempt receives an HTTP 403, no further
direct attempt is issued within the call — the direct attempts are
exactly attempts `0..i`; with rotation disabled the call fails with
that 403 and touches no proxy, and with rotation enabled (hence, per
config.py, a nonempty pool of nonempty URIs) the very next attempt
after the 403 is the first proxied attempt. -/
theorem direct403_escalation (ctx : Ctx) (maxRetries : Nat) (net : Nat → Outcome)
    (jit : Nat → ℚ) (pidx i : Nat)
    (hi : i ≤ maxRetries)
    (htrans : ∀ k, k < i → transientO (net k))
    (h403 : net i = .httpErr 403) :
    ((make_request ctx maxRetries net jit pidx).trace.filter isDirectEvt =
      (List.range (i + 1)).map Event.direct) ∧
    (ctx.proxyRotationEnabled = false →
      (make_request ctx maxRetries net jit pidx).result = .failure (.httpStatus 403) ∧
      ∀ p r, Event.proxyReq p r ∉ (make_request ctx maxRetries net jit pidx).trace) ∧
    (ctx.proxyRotationEnabled = true → ctx.proxyList ≠ [] →
      (∀ p ∈ ctx.proxyList, p ≠ "") →
      ∃ pre p rest, (make_request ctx maxRetries net jit pidx).trace =
        pre ++ Event.acquire :: Event.direct i :: Event.acquire ::
          Event.proxyReq p 0 :: rest) := by
  have hd := dOut_403 net jit maxRetries i hi htrans h403
  have hdt : (dOut net jit maxRetries).trace =
      (List.range' 0 i).flatMap (dblock jit) ++ [Event.acquire, Event.direct i] := by
    rw [hd]
  have hdb : (dOut net jit maxRetries).body = none := by rw [hd]
  have hdl : (dOut net jit maxRetries).lastErr = some (.httpStatus 403) := by rw [hd]
  have hfd : ((dOut net jit maxRetries).trace.filter isDirectEvt) =
      (List.range (i + 1)).map Event.direct := by
    rw [hdt, List.filter_append, filter_flatMap_dblock]
    simp [isDirectEvt, List.range_succ, List.range_eq_range']
  have hnoproxy : ∀ p r, Event.proxyReq p r ∉ (dOut net jit maxRetries).trace := by
    intro p r
    rw [hdt]
    intro hmem
    rcases List.mem_append.mp hmem with hmem | hmem
    · exact absurd (List.all_eq_true.mp (flatMap_dblock_dOnly jit _) _ hmem)
        (by simp [dOnly])
    · simp at hmem
  rcases make_request_cases ctx maxRetries net jit pidx with
    ⟨body, hsome, _⟩ | ⟨_, hgd, hmk⟩ | ⟨_, hgd, hsub⟩
  · rw [hdb] at hsome
    exact Option.noConfusion hsome
  · -- no proxy escalation: rotation must be disabled
    rw [hdl] at hgd
    simp [is403Err] at hgd
    have hraise : raisePhase ctx (some (Error.httpStatus 403)) =
        (.failure (.httpStatus 403),
         [.log403Diag (if ctx.proxyRotationEnabled then some ctx.proxyList.length
            else none)]) := by
      simp [raisePhase, is403Err]
    refine ⟨?_, ?_, ?_⟩
    · rw [hmk]
      show (((dOut net jit maxRetries).trace ++
        (raisePhase ctx (dOut net jit maxRetries).lastErr).2).filter isDirectEvt) = _
      rw [hdl, hraise, List.filter_append, hfd]
      simp [isDirectEvt]
    · intro _
      constructor
      · rw [hmk]
        show (raisePhase ctx (dOut net jit maxRetries).lastErr).1 = _
        rw [hdl, hraise]
      · intro p r
        rw [hmk]
        show Event.proxyReq p r ∉ (dOut net jit maxRetries).trace ++
          (raisePhase ctx (dOut net jit maxRetries).lastErr).2
        rw [hdl, hraise]
        intro hmem
        rcases List.mem_append.mp hmem with hmem | hmem
        · exact hnoproxy p r hmem
        · simp at hmem
    · intro hco
      rw [hco] at hgd
      exact Bool.noConfusion hgd
  · -- proxy escalation taken: rotation is enabled
    rw [hdl] at hgd
    simp [is403Err] at hgd
    have hptrace_all : (pOut ctx net jit maxRetries pidx).trace.all pOnly = true :=
      proxyLoop_pOnly net jit ctx.proxyList ctx.proxyList.length pidx
        (dOut net jit maxRetries).nextNet
    have hpfilter : (pOut ctx net jit maxRetries pidx).trace.filter isDirectEvt = [] :=
      filter_isDirect_of_pOnly (all_orL hptrace_all)
    have hstart : ctx.proxyList ≠ [] → (∀ p ∈ ctx.proxyList, p ≠ "") →
        ∃ p rest, (pOut ctx net jit maxRetries pidx).trace =
          .acquire :: .proxyReq p 0 :: rest := by
      intro hne hnb
      exact proxyLoop_start net jit ctx.proxyList ctx.proxyList.length pidx
        (dOut net jit maxRetries).nextNet hne hnb
        (Nat.succ_le_of_lt (List.length_pos.mpr hne))
    have hraise : (raisePhase ctx (dOut net jit maxRetries).lastErr).2 =
        [.log403Diag (if ctx.proxyRotationEnabled then some ctx.proxyList.length
          else none)] := by
      rw [hdl]
      simp [raisePhase, is403Err]
    rcases hsub with ⟨body, _, hmk⟩ | ⟨_, _, hmk⟩ | ⟨_, _, hmk⟩
    · refine ⟨?_, ?_, ?_⟩
      · rw [hmk]
        show (((dOut net jit maxRetries).trace ++
          (pOut ctx net jit maxRetries pidx).trace).filter isDirectEvt) = _
        rw [List.filter_append, hfd, hpfilter, List.append_nil]
      · intro hco
        rw [hco] at hgd
        exact Bool.noConfusion hgd
      · intro _ hne hnb
        obtain ⟨p, rest, hpt⟩ := hstart hne hnb
        refine ⟨(List.range' 0 i).flatMap (dblock jit), p, rest, ?_⟩
        rw [hmk]
        show (dOut net jit maxRetries).trace ++
          (pOut ctx net jit maxRetries pidx).trace = _
        rw [hdt, hpt]
        simp
    · refine ⟨?_, ?_, ?_⟩
      · rw [hmk]
        show (((dOut net jit maxRetries).trace ++
          (pOut ctx net jit maxRetries pidx).trace).filter isDirectEvt) = _
        rw [List.filter_append, hfd, hpfilter, List.append_nil]
      · intro hco
        rw [hco] at hgd
        exact Bool.noConfusion hgd
      · intro _ hne hnb
        obtain ⟨p, rest, hpt⟩ := hstart hne hnb
        refine ⟨(List.range' 0 i).flatMap (dblock jit), p, rest, ?_⟩
        rw [hmk]
        show (dOut net jit maxRetries).trace ++
          (pOut ctx net jit maxRetries pidx).trace = _
        rw [hdt, hpt]
        simp
    · refine ⟨?_, ?_, ?_⟩
      · rw [hmk]
        show (((dOut net jit maxRetries).trace ++
          (pOut ctx net jit maxRetries pidx).trace ++
          (raisePhase ctx (dOut net jit maxRetries).lastErr).2).filter isDirectEvt) = _
        rw [List.filter_append, List.filter_append, hfd, hpfilter, hraise]
        simp [isDirectEvt]
      · intro hco
        rw [hco] at hgd
        exact Bool.noConfusion hgd
      · intro _ hne hnb
        obtain ⟨p, rest, hpt⟩ := hstart hne hnb
        refine ⟨(List.range' 0 i).flatMap (dblock jit), p,
          rest ++ (raisePhase ctx (dOut net jit maxRetries).lastErr).2, ?_⟩
        rw [hmk]
        show (dOut net jit maxRetries).trace ++
          (pOut ctx net jit maxRetries pidx).trace ++
          (raisePhase ctx (dOut net jit maxRetries).lastErr).2 = _
        rw [hdt, hpt]
        simp

/-- Witness for C1: a first-attempt 403 with one proxy configured —
one direct attempt only, then the proxy is drawn at once. -/
theorem direct403_escalation_w :
    ((make_request ⟨true, ["p1"]⟩ 3 (fun _ => .httpErr 403) (fun _ => 0) 0).trace.filter
      isDirectEvt = (List.range 1).map Event.direct) ∧
    ((⟨true, ["p1"]⟩ : Ctx).proxyRotationEnabled = false →
      (make_request ⟨true, ["p1"]⟩ 3 (fun _ => .httpErr 403) (fun _ => 0) 0).result =
        .failure (.httpStatus 403) ∧
      ∀ p r, Event.proxyReq p r ∉
        (make_request ⟨true, ["p1"]⟩ 3 (fun _ => .httpErr 403) (fun _ => 0) 0).trace) ∧
    ((⟨true, ["p1"]⟩ : Ctx).proxyRotationEnabled = true →
      (⟨true, ["p1"]⟩ : Ctx).proxyList ≠ [] →
      (∀ p ∈ (⟨true, ["p1"]⟩ : Ctx).proxyList, p ≠ "") →
      ∃ pre p rest,
        (make_request ⟨true, ["p1"]⟩ 3 (fun _ => .httpErr 403) (fun _ => 0) 0).trace =
          pre ++ Event.acquire :: Event.direct 0 :: Event.acquire ::
            Event.proxyReq p 0 :: rest) :=
  direct403_escalation ⟨true, ["p1"]⟩ 3 (fun _ => .httpErr 403) (fun _ => 0) 0 0
    (by omega) (fun k hk => absurd hk (by omega)) rfl

/-- Claim C10: when `_make_request` fails after touching the proxy
phase, the raised exception is the `last_error` recorded by the direct
phase — necessarily the direct 403 — and proxy errors never replace
it. -/
theorem proxyFailure_surfaces_direct_error (ctx : Ctx) (maxRetries : Nat)
    (net : Nat → Outcome) (jit : Nat → ℚ) (pidx : Nat) (e : Error)
    (hp : ∃ p r, Event.proxyReq p r ∈ (make_request ctx maxRetries net jit pidx).trace)
    (hf : (make_request ctx maxRetries net jit pidx).result = .failure e) :
    e = .httpStatus 403 ∧ (dOut net jit maxRetries).lastErr = some e := by
  obtain ⟨p, r, hmem⟩ := hp
  rcases make_request_cases ctx maxRetries net jit pidx with
    ⟨body, _, hmk⟩ | ⟨_, _, hmk⟩ | ⟨_, hgd, hsub⟩
  · rw [hmk] at hf
    exact FetchResult.noConfusion hf
  · -- without the proxy phase there is no proxied attempt in the trace
    rw [hmk] at hmem
    have hmem' : Event.proxyReq p r ∈ (dOut net jit maxRetries).trace ++
        (raisePhase ctx (dOut net jit maxRetries).lastErr).2 := hmem
    rcases List.mem_append.mp hmem' with hmem'' | hmem''
    · exact absurd hmem''
        (not_mem_of_all_not (by rw [dOut]; exact directLoop_dOnly net jit maxRetries _ _ _)
          rfl)
    · exact absurd hmem'' (not_mem_of_all_not (raisePhase_log ctx _) rfl)
  · have hle := is403Err_eq ((Bool.and_eq_true _ _).mp hgd).2
    rcases hsub with ⟨body, _, hmk⟩ | ⟨_, _, hmk⟩ | ⟨_, _, hmk⟩
    · rw [hmk] at hf
      exact FetchResult.noConfusion hf
    · rw [hmk] at hf
      exact FetchResult.noConfusion hf
    · rw [hmk] at hf
      have hres : (raisePhase ctx (dOut net jit maxRetries).lastErr).1 = .failure e := hf
      have hcon := raisePhase_result ctx _ e hres
      rw [hle] at hcon
      injection hcon with h'
      exact ⟨h'.symm, by rw [hle, h']⟩

/-- Witness for C10: every proxy also 403s; the surfaced error is the
direct-phase 403. -/
theorem proxyFailure_surfaces_direct_error_w :
    (Error.httpStatus 403 = Error.httpStatus 403) ∧
    (dOut (fun _ => .httpErr 403) (fun _ => 0) 3).lastErr =
      some (.httpStatus 403) :=
  proxyFailure_surfaces_direct_error ⟨true, ["p1", "p2"]⟩ 3 (fun _ => .httpErr 403)
    (fun _ => 0) 0 (.httpStatus 403) ⟨"p1", 0, by decide⟩ rfl

/-- Counterexample to C7 as stated: two exhausted runs that tried
different strategies — direct-only versus direct plus two proxies —
surface the *identical* error value, the stored raw
`httpx.HTTPStatusError` for the direct 403.  The propagated exception
is the unmodified low-level transport error and carries no annotation
of which strategies were tried (that breakdown is only logged). -/
theorem exhausted_error_cex :
    (make_request ⟨false, []⟩ 3 (fun _ => .httpErr 403) (fun _ => 0) 0).result =
      .failure (.httpStatus 403) ∧
    (make_request ⟨true, ["p1", "p2"]⟩ 3 (fun _ => .httpErr 403) (fun _ => 0) 0).result =
      .failure (.httpStatus 403) ∧
    ((make_request ⟨false, []⟩ 3 (fun _ => .httpErr 403) (fun _ => 0) 0).trace.filter
      isProxyEvt).length = 0 ∧
    ((make_request ⟨true, ["p1", "p2"]⟩ 3 (fun _ => .httpErr 403)
      (fun _ => 0) 0).trace.filter isProxyEvt).length = 2 :=
  ⟨rfl, rfl, rfl, rfl⟩

/-- Claim C7 (amended): when `_make_request` fails after exhausting its
attempts, the exception propagated to the caller is the raw transport
error stored as `last_error` by the direct phase — one of the two
caught httpx exception kinds, unannotated; the strategies-tried
breakdown is emitted to the log only, and only when that error is a
403. -/
theorem exhausted_error_amended (ctx : Ctx) (maxRetries : Nat) (net : Nat → Outcome)
    (jit : Nat → ℚ) (pidx : Nat) (e : Error)
    (hf : (make_request ctx maxRetries net jit pidx).result = .failure e) :
    (dOut net jit maxRetries).lastErr = some e ∧
    (e = .httpStatus 403 →
      Event.log403Diag (if ctx.proxyRotationEnabled then some ctx.proxyList.length
        else none) ∈ (make_request ctx maxRetries net jit pidx).trace) ∧
    (e ≠ .httpStatus 403 →
      ∀ o, Event.log403Diag o ∉ (make_request ctx maxRetries net jit pidx).trace) := by
  rcases make_request_cases ctx maxRetries net jit pidx with
    ⟨body, _, hmk⟩ | ⟨_, _, hmk⟩ | ⟨_, hgd, hsub⟩
  · rw [hmk] at hf
    exact FetchResult.noConfusion hf
  · -- failure without proxy escalation
    rw [hmk] at hf
    have hres : (raisePhase ctx (dOut net jit maxRetries).lastErr).1 = .failure e := hf
    have hle := raisePhase_result ctx _ e hres
    refine ⟨hle, ?_, ?_⟩
    · intro he403
      subst he403
      rw [hmk]
      have hraise : (raisePhase ctx (dOut net jit maxRetries).lastErr).2 =
          [.log403Diag (if ctx.proxyRotationEnabled then some ctx.proxyList.length
            else none)] := by
        rw [hle]
        simp [raisePhase, is403Err]
      show Event.log403Diag _ ∈ (dOut net jit maxRetries).trace ++
        (raisePhase ctx (dOut net jit maxRetries).lastErr).2
      rw [hraise]
      exact List.mem_append_right _ (by simp)
    · intro hne o
      rw [hmk]
      have hraise : (raisePhase ctx (dOut net jit maxRetries).lastErr).2 = [] := by
        rw [hle]
        simp [raisePhase, is403Err_ne hne]
      show Event.log403Diag o ∉ (dOut net jit maxRetries).trace ++
        (raisePhase ctx (dOut net jit maxRetries).lastErr).2
      rw [hraise, List.append_nil]
      intro hmem
      exact absurd (List.all_eq_true.mp
        (by rw [dOut]; exact directLoop_dOnly net jit maxRetries _ _ _) _ hmem)
        (by simp [dOnly])
  · -- failure after the proxy phase
    have hle403 := is403Err_eq ((Bool.and_eq_true _ _).mp hgd).2
    rcases hsub with ⟨body, _, hmk⟩ | ⟨_, _, hmk⟩ | ⟨_, _, hmk⟩
    · rw [hmk] at hf
      exact FetchResult.noConfusion hf
    · rw [hmk] at hf
      exact FetchResult.noConfusion hf
    · rw [hmk] at hf
      have hres : (raisePhase ctx (dOut net jit maxRetries).lastErr).1 = .failure e := hf
      have hle := raisePhase_result ctx _ e hres
      have he403 : e = .httpStatus 403 := by
        rw [hle403] at hle
        injection hle with h'
        exact h'.symm
      refine ⟨hle, ?_, fun hne => absurd he403 hne⟩
      intro _
      rw [hmk]
      have hraise : (raisePhase ctx (dOut net jit maxRetries).lastErr).2 =
          [.log403Diag (if ctx.proxyRotationEnabled then some ctx.proxyList.length
            else none)] := by
        rw [hle403]
        simp [raisePhase, is403Err]
      show Event.log403Diag _ ∈ (dOut net jit maxRetries).trace ++
        (pOut ctx net jit maxRetries pidx).trace ++
        (raisePhase ctx (dOut net jit maxRetries).lastErr).2
      rw [hraise]
      exact List.mem_append_right _ (by simp)

/-- Witness for the amended C7: a run of persistent request errors
fails with the stored raw request error and logs no 403 diagnostics. -/
theorem exhausted_error_amended_w :
    (dOut (fun _ => .reqErr) (fun _ => 0) 3).lastErr = some .requestError ∧
    ((Error.requestError = .httpStatus 403) →
      Event.log403Diag (if (⟨false, []⟩ : Ctx).proxyRotationEnabled
        then some (⟨false, []⟩ : Ctx).proxyList.length else none) ∈
        (make_request ⟨false, []⟩ 3 (fun _ => .reqErr) (fun _ => 0) 0).trace) ∧
    ((Error.requestError ≠ .httpStatus 403) →
      ∀ o, Event.log403Diag o ∉
        (make_request ⟨false, []⟩ 3 (fun _ => .reqErr) (fun _ => 0) 0).trace) :=
  exhausted_error_amended ⟨false, []⟩ 3 (fun _ => .reqErr) (fun _ => 0) 0
    .requestError rfl

end FPL
